import Mathlib

/-!
Verification of the kro resource-graph builder against its specification.

The definitions below are a shallow embedding of the Go sources:
  internal/graph/parser/parser.go   (expression extraction from typed documents)
  internal/graph/validation.go      (ResourceGroup naming validation)
  the CRD default status schema and printer columns.

Go pointers become `Option`, Go maps become association lists carried in
iteration order, Go panics become the `PResult.panic` constructor, and the
in-place mutation performed by `validateSchema` is threaded functionally:
the function returns the (possibly updated) schema that the rest of the
node dispatch then uses.
-/

namespace Kro

/-- Result of a Go function that may panic (index out of range), return an
error, or succeed. -/
inductive PResult (α : Type) : Type where
  | panic : PResult α
  | error : String → PResult α
  | ok : α → PResult α
deriving Repr

/-- Returns `true` exactly on `ok`. -/
def PResult.isOk {α : Type} : PResult α → Bool
  | .ok _ => true
  | _ => false

/-- Shallow embedding of `k8s.io/kube-openapi spec.Schema`, restricted to the
fields read by parser.go: `Type`, `Properties` (nil-able map, kept in
iteration order), `AdditionalProperties` (pointer to `SchemaOrBool`, i.e. an
`Allows` flag and an optional sub-schema), `Items` (pointer to
`SchemaOrArray`, of which only the `Schema` field is read), `OneOf`, and the
vendor extensions (only boolean-valued extensions occur in the claims). -/
inductive Schema : Type where
  | mk (type : List String)
       (properties : Option (List (String × Schema)))
       (additionalProperties : Option (Bool × Option Schema))
       (items : Option (Option Schema))
       (oneOf : List Schema)
       (extensions : List (String × Bool))

/-- The `Type` field. -/
def Schema.type : Schema → List String
  | .mk t _ _ _ _ _ => t

/-- The `Properties` field (`none` models a nil Go map). -/
def Schema.properties : Schema → Option (List (String × Schema))
  | .mk _ p _ _ _ _ => p

/-- The `AdditionalProperties` field (`none` models a nil pointer; the pair
is `(Allows, Schema)`). -/
def Schema.additionalProperties : Schema → Option (Bool × Option Schema)
  | .mk _ _ a _ _ _ => a

/-- The `Items` field (`none` models a nil pointer; the inner option is the
`Items.Schema` pointer). -/
def Schema.items : Schema → Option (Option Schema)
  | .mk _ _ _ i _ _ => i

/-- The `OneOf` field. -/
def Schema.oneOf : Schema → List Schema
  | .mk _ _ _ _ o _ => o

/-- The vendor extensions. -/
def Schema.extensions : Schema → List (String × Bool)
  | .mk _ _ _ _ _ e => e

/-- Overwrite the `Type` field, leaving every other field unchanged.  This is
the one mutation `validateSchema` performs in place in Go. -/
def Schema.withType : Schema → List String → Schema
  | .mk _ p a i o e, t => .mk t p a i o e

/-- The zero value `spec.Schema{}`. -/
def emptySchema : Schema := .mk [] none none none [] []

/-- Embedding of `variable.FieldDescriptor`: the unit of output of the extractor. -/
structure FieldDescriptor : Type where
  expressions : List String
  expectedType : String
  expectedSchema : Option Schema
  path : String
  standaloneExpression : Bool

/-- A decoded document value (`interface{}` produced by JSON/YAML decoding).
`vint` covers the Go kinds `int`, `int64` and `int32`; `vnum` covers
`float64` (the parser only ever inspects its runtime type, never the number
itself); `vother` is any other Go runtime type.  Object entries are carried
in map iteration order, which Go does not fix: two `vobj` values whose entry
lists are permutations of each other (recursively) denote the same map. -/
inductive Value : Type where
  | vnull
  | vbool (b : Bool)
  | vint (n : Int)
  | vnum
  | vstr (s : String)
  | varr (elems : List Value)
  | vobj (entries : List (String × Value))
  | vother

/-- The vendor extension key checked by `parseObject`. -/
def xKubernetesPreserveUnknownFields : String := "x-kubernetes-preserve-unknown-fields"

/-- Lookup of a vendor extension (Go map indexing with ok-flag). -/
def extLookup (schema : Schema) (key : String) : Option Bool :=
  match schema.extensions.find? (fun kv => kv.1 == key) with
  | some kv => some kv.2
  | none => none

/-- The Go condition `schema.AdditionalProperties != nil && schema.AdditionalProperties.Allows`. -/
def apAllows (schema : Schema) : Bool :=
  match schema.additionalProperties with
  | some (allows, _) => allows
  | none => false

/-- Embedding of `validateSchema` from parser.go, with the in-place `schema.Type`
overwrite returned functionally.  The unchecked Go index
`schema.OneOf[0].Type[0]` becomes `PResult.panic` when the first `OneOf`
alternative has an empty `Type` list. -/
def validateSchemaT (schema : Option Schema) (path : String) : PResult Schema :=
  match schema with
  | none => .error ("schema is nil for path " ++ path)
  | some s =>
    if s.type.length ≠ 1 then
      match s.oneOf with
      | [] => .error "found schema type that is not a single type"
      | alt :: _ =>
        match alt.type with
        | [] => .panic
        | t :: _ => .ok (s.withType [t])
    else .ok s

/-- Embedding of `getExpectedType` from parser.go.  It is only called on schemas that
passed `validateSchema`, whose `Type` therefore has exactly one element; the
`[]` case mirroring the Go index `schema.Type[0]` is unreachable there. -/
def getExpectedType (schema : Schema) : String :=
  match schema.type with
  | [] => ""
  | t :: _ =>
    if t ≠ "" then t
    else if apAllows schema then "any"
    else ""

/-- The part of `getFieldSchema` reached when the `Properties` lookup
missed: the `AdditionalProperties` fallbacks. -/
def getFieldSchemaAdditional (schema : Schema) (field : String) : Except String Schema :=
  match schema.additionalProperties with
  | some (allows, someSub) =>
    match someSub with
    | some sub => .ok sub
    | none => if allows then .ok emptySchema else .error ("schema not found for field " ++ field)
  | none => .error ("schema not found for field " ++ field)

/-- Embedding of `getFieldSchema` from parser.go. -/
def getFieldSchema (schema : Schema) (field : String) : Except String Schema :=
  match schema.properties with
  | some props =>
    match props.find? (fun kv => kv.1 == field) with
    | some kv => .ok kv.2
    | none => getFieldSchemaAdditional schema field
  | none => getFieldSchemaAdditional schema field

/-- The Go condition `schema.Items != nil && schema.Items.Schema != nil` collapsed to the
item schema pointer. -/
def itemsSchemaOf (schema : Schema) : Option Schema :=
  match schema.items with
  | some (some s) => some s
  | _ => none

/-- The `Properties` of `schema.Items.Schema` (empty when any pointer on the
way is nil), used by the second branch of `getArrayItemSchema`. -/
def itemsSchemaProps (schema : Schema) : List (String × Schema) :=
  match itemsSchemaOf schema with
  | some s => (s.properties).getD []
  | none => []

/-- Embedding of `getArrayItemSchema` from parser.go, both branches kept: the first
returns `Items.Schema` when `Items` and `Items.Schema` are non-nil; the
second would fire under the same guard strengthened with
`len(Items.Schema.Properties) > 0` and builds an object schema from the
parent `Properties`. -/
def getArrayItemSchema (schema : Schema) (path : String) : Except String Schema :=
  if h : (itemsSchemaOf schema).isSome then
    .ok ((itemsSchemaOf schema).get h)
  else if (itemsSchemaOf schema).isSome && !(itemsSchemaProps schema).isEmpty then
    .ok (.mk ["object"] schema.properties none none [] [])
  else
    .error ("invalid array schema for path " ++ path ++
      ": neither Items.Schema nor Properties are defined")

/-- The simplified item-schema lookup stated by the spec: return
`Items.Schema` when both `Items` and `Items.Schema` are non-nil, otherwise
the invalid-array-schema error.  (Stated from the spec for claim C7; to be
compared with `getArrayItemSchema` above.) -/
def getArrayItemSchemaSimple (schema : Schema) (path : String) : Except String Schema :=
  match itemsSchemaOf schema with
  | some s => .ok s
  | none =>
    .error ("invalid array schema for path " ++ path ++
      ": neither Items.Schema nor Properties are defined")

/-- Embedding of `isInteger` from parser.go: Go runtime-type test for `int`, `int64`,
`int32`. -/
def isInteger : Value → Bool
  | .vint _ => true
  | _ => false

/-- One character of the `%q` quoting used by `joinPathAndFieldName`:
quotes and backslashes are escaped, the printable characters appearing in
field names are kept as they are. -/
def quoteEscapeChar (c : Char) : List Char :=
  if c = '"' then ['\\', '"']
  else if c = '\\' then ['\\', '\\']
  else [c]

/-- Go `%q` applied to a field name (restricted to the printable characters
that occur in field names): the escaped text between double quotes. -/
def goQuote (name : List Char) : List Char :=
  '"' :: (name.flatMap quoteEscapeChar) ++ ['"']

/-- Embedding of `joinPathAndFieldName` at the character-list level: the quoted bracket
form when the field name is empty or contains a dot, the name alone when the
path is empty, and the dotted form otherwise. -/
def encodeSeg (path name : List Char) : List Char :=
  if name.isEmpty || name.contains '.' then path ++ '[' :: (goQuote name ++ [']'])
  else if path.isEmpty then name
  else path ++ '.' :: name

/-- Embedding of `joinPathAndFieldName` from parser.go. -/
def joinPathAndFieldName (path fieldName : String) : String :=
  ⟨encodeSeg path.data fieldName.data⟩

/-- A character of the cutset of `strings.Trim(field, "$\x7b\x7d")`. -/
def isExprDelim (c : Char) : Bool :=
  c = '$' || c = '\x7b' || c = '\x7d'

/-- Embedding of `strings.Trim(field, cutset)` for the delimiter cutset: drop cutset
characters from both ends. -/
def trimDollarBraces (s : String) : String :=
  ⟨((s.data.dropWhile isExprDelim).reverse.dropWhile isExprDelim).reverse⟩

/-- Modelled from the spec: the expression scanner behind
`extractExpressions`, which is not under src/.  The spec describes
expressions as delimited fragments `$\x7b...\x7d` that may be embedded in a
larger string, with malformed delimiters producing a parse error.  The
accumulator is `some acc` while inside a fragment (characters in reverse
order) and `none` outside; `found` collects completed fragments in reverse
declaration order. -/
def scanExpressionsAux : List Char → Option (List Char) → List String →
    Except String (List String)
  | [], none, found => .ok found.reverse
  | [], some _, _ => .error "malformed expression: missing closing delimiter"
  | c :: rest, some acc, found =>
    if c = '\x7d' then scanExpressionsAux rest none (String.mk acc.reverse :: found)
    else scanExpressionsAux rest (some (c :: acc)) found
  | '$' :: '\x7b' :: rest, none, found => scanExpressionsAux rest (some []) found
  | _ :: rest, none, found => scanExpressionsAux rest none found

/-- Modelled from the spec: `extractExpressions`, which is not under src/.
It returns the expressions embedded in the string in declaration order,
without their delimiters, and a parse error on malformed delimiters. -/
def extractExpressions (s : String) : Except String (List String) :=
  scanExpressionsAux s.data none []

/-- Modelled from the spec: `isStandaloneExpression`, which is not under
src/.  A string is a standalone expression when the entire string is one
single delimited expression; delimiter parse errors propagate. -/
def isStandaloneExpression (s : String) : Except String Bool :=
  match extractExpressions s with
  | .error e => .error e
  | .ok es =>
    match es with
    | [e] => .ok (s == "$\x7b" ++ e ++ "\x7d")
    | _ => .ok false

/-- Embedding of `parseString` from parser.go. -/
def parseString (field : String) (schema : Schema) (path expectedType : String) :
    PResult (List FieldDescriptor) :=
  match isStandaloneExpression field with
  | .error e => .error e
  | .ok true =>
    .ok [{ expressions := [trimDollarBraces field],
           expectedType := expectedType,
           expectedSchema := some schema,
           path := path,
           standaloneExpression := true }]
  | .ok false =>
    if expectedType ≠ "string" && expectedType ≠ "any" then
      .error ("expected string type or AdditionalProperties for path " ++ path ++
        ", got " ++ field)
    else
      match extractExpressions field with
      | .error e => .error e
      | .ok expressions =>
        if expressions.length > 0 then
          .ok [{ expressions := expressions,
                 expectedType := expectedType,
                 expectedSchema := none,
                 path := path,
                 standaloneExpression := false }]
        else .ok []

/-- Embedding of `parseScalarTypes` from parser.go (its schema argument is unused there). -/
def parseScalarTypes (field : Value) (_schema : Schema) (path expectedType : String) :
    PResult (List FieldDescriptor) :=
  if expectedType = "any" then .ok []
  else if expectedType = "number" then
    match field with
    | .vnum => .ok []
    | _ => .error ("expected number type for path " ++ path)
  else if expectedType = "integer" then
    if isInteger field then .ok []
    else .error ("expected integer type for path " ++ path)
  else if expectedType = "boolean" then
    match field with
    | .vbool _ => .ok []
    | _ => .error ("expected boolean type for path " ++ path)
  else .error ("unexpected type for path " ++ path)

mutual

/-- Embedding of `parseResource` from parser.go: validate the schema at this node (with
the union fallback applied to the schema used from here on), then dispatch
on the runtime type of the value.  The bodies of `parseObject` and
`parseArray` are inlined here so that the mutual recursion is structural;
the standalone `parseObject` and `parseArray` below restate them and are
proved to agree with this dispatch. -/
def parseResource (resource : Value) (schema : Option Schema) (path : String) :
    PResult (List FieldDescriptor) :=
  match validateSchemaT schema path with
  | .panic => .panic
  | .error e => .error e
  | .ok s =>
    match resource with
    | .vobj entries =>
      if getExpectedType s ≠ "object" && !(apAllows s) then
        .error ("expected object type or AdditionalProperties allowed for path " ++ path)
      else if !s.extensions.isEmpty &&
          extLookup s xKubernetesPreserveUnknownFields == some true then
        .ok []
      else
        parseObjectEntries entries s path
    | .varr items =>
      if getExpectedType s ≠ "array" then
        .error ("expected array type for path " ++ path)
      else
        match getArrayItemSchema s path with
        | .error e => .error e
        | .ok itemSchema => parseArrayItems items itemSchema path 0
    | .vstr str => parseString str s path (getExpectedType s)
    | .vnull => .ok []
    | other => parseScalarTypes other s path (getExpectedType s)
termination_by structural resource

/-- The `for fieldName, value := range field` loop of `parseObject`:
per entry, field-schema lookup, recursive parse at the joined path, and
append of the collected descriptors; the first failure aborts. -/
def parseObjectEntries (entries : List (String × Value)) (schema : Schema)
    (path : String) : PResult (List FieldDescriptor) :=
  match entries with
  | [] => .ok []
  | (fieldName, value) :: rest =>
    match getFieldSchema schema fieldName with
    | .error e =>
      .error ("error getting field schema for path " ++ path ++ "." ++ fieldName ++ ": " ++ e)
    | .ok fieldSchema =>
      match parseResource value (some fieldSchema) (joinPathAndFieldName path fieldName) with
      | .panic => .panic
      | .error e => .error e
      | .ok fieldExpressions =>
        match parseObjectEntries rest schema path with
        | .panic => .panic
        | .error e => .error e
        | .ok restExpressions => .ok (fieldExpressions ++ restExpressions)
termination_by structural entries

/-- The `for i, item := range field` loop of `parseArray`: each item is
parsed at path `path[i]`; the first failure aborts. -/
def parseArrayItems (items : List Value) (itemSchema : Schema) (path : String)
    (i : Nat) : PResult (List FieldDescriptor) :=
  match items with
  | [] => .ok []
  | item :: rest =>
    match parseResource item (some itemSchema) (path ++ "[" ++ toString i ++ "]") with
    | .panic => .panic
    | .error e => .error e
    | .ok itemExpressions =>
      match parseArrayItems rest itemSchema path (i + 1) with
      | .panic => .panic
      | .error e => .error e
      | .ok restExpressions => .ok (itemExpressions ++ restExpressions)
termination_by structural items

end

/-- Embedding of `parseObject` from parser.go: the object-type precheck, then the
preserve-unknown-fields extension check, then the iteration over the
entries in map iteration order. -/
def parseObject (entries : List (String × Value)) (schema : Schema)
    (path expectedType : String) : PResult (List FieldDescriptor) :=
  if expectedType ≠ "object" && !(apAllows schema) then
    .error ("expected object type or AdditionalProperties allowed for path " ++ path)
  else if !schema.extensions.isEmpty &&
      extLookup schema xKubernetesPreserveUnknownFields == some true then
    .ok []
  else
    parseObjectEntries entries schema path

/-- Embedding of `parseArray` from parser.go: the array-type check, the item-schema
lookup, then the iteration over the items. -/
def parseArray (items : List Value) (schema : Schema) (path expectedType : String) :
    PResult (List FieldDescriptor) :=
  if expectedType ≠ "array" then
    .error ("expected array type for path " ++ path)
  else
    match getArrayItemSchema schema path with
    | .error e => .error e
    | .ok itemSchema => parseArrayItems items itemSchema path 0


/-- Embedding of `ParseResource` from parser.go: the exported entry point, starting the
traversal at the document root with the empty path. -/
def ParseResource (resource : List (String × Value)) (resourceSchema : Option Schema) :
    PResult (List FieldDescriptor) :=
  parseResource (.vobj resource) resourceSchema ""

/-! ## internal/graph/validation.go -/

/-- Embedding of `ErrNamingConvention` from validation.go. -/
def ErrNamingConvention : String := "naming convention violation"

/-- Embedding of `reservedKeyWords` from validation.go, in source order. -/
def reservedKeyWords : List String :=
  ["apiVersion", "context", "dependency", "dependencies", "externalRef",
   "externalReference", "externalRefs", "externalReferences", "graph",
   "instance", "kind", "metadata", "namespace", "object", "resource",
   "resourcegroup", "resources", "runtime", "serviceAccountName", "spec",
   "status", "kro", "variables", "vars", "version"]

/-- A character matched by the regex class `[a-z]`. -/
def isLowerAZ (c : Char) : Bool := 'a' ≤ c && c ≤ 'z'

/-- A character matched by the regex class `[A-Z]`. -/
def isUpperAZ (c : Char) : Bool := 'A' ≤ c && c ≤ 'Z'

/-- A character matched by the regex class `[0-9]`. -/
def isDigit09 (c : Char) : Bool := '0' ≤ c && c ≤ '9'

/-- A character matched by the regex class `[a-zA-Z0-9]`. -/
def isAlphaNum09 (c : Char) : Bool := isLowerAZ c || isUpperAZ c || isDigit09 c

/-- The anchored regex `^[a-z][a-zA-Z0-9]*$` (`lowerCamelCaseRegex`). -/
def lowerCamelCaseMatch (s : String) : Bool :=
  match s.data with
  | [] => false
  | c :: rest => isLowerAZ c && rest.all isAlphaNum09

/-- The anchored regex `^[A-Z][a-zA-Z0-9]*$` (`upperCamelCaseRegex`). -/
def upperCamelCaseMatch (s : String) : Bool :=
  match s.data with
  | [] => false
  | c :: rest => isUpperAZ c && rest.all isAlphaNum09

/-- Embedding of `isValidResourceID` from validation.go. -/
def isValidResourceID (id : String) : Bool := lowerCamelCaseMatch id

/-- Embedding of `isValidKindName` from validation.go. -/
def isValidKindName (name : String) : Bool := upperCamelCaseMatch name

/-- Embedding of `isKROReservedWord` from validation.go: linear scan of the reserved
list. -/
def isKROReservedWord (word : String) : Bool := reservedKeyWords.contains word

/-- One resource template of a ResourceGroup, restricted to the field read
by the naming validation (`res.ID`). -/
structure RGResource : Type where
  id : String

/-- The `Spec.Schema` part of a ResourceGroup, restricted to `Kind`. -/
structure RGSchema : Type where
  kind : String

/-- A `v1alpha1.ResourceGroup`, restricted to the fields read by the naming
validation: `Spec.Schema.Kind` and `Spec.Resources`, the latter in
declaration order. -/
structure ResourceGroup : Type where
  kind : RGSchema
  resources : List RGResource

/-- The loop of `validateResourceIDs`, with the `seen` set accumulated as a
list: per resource, the reserved-word check, the naming check, and the
duplicate check, in that order; the first failure aborts. -/
def validateResourceIDsAux (seen : List String) : List RGResource → Option String
  | [] => none
  | res :: rest =>
    if isKROReservedWord res.id then
      some ("id " ++ res.id ++ " is a reserved keyword in KRO")
    else if !isValidResourceID res.id then
      some ("id " ++ res.id ++ " is not a valid KRO resource id: must be lower camelCase")
    else if seen.contains res.id then
      some ("found duplicate resource IDs " ++ res.id)
    else
      validateResourceIDsAux (res.id :: seen) rest

/-- Embedding of `validateResourceIDs` from validation.go (`none` is a nil error, `some`
the error message). -/
def validateResourceIDs (rg : ResourceGroup) : Option String :=
  validateResourceIDsAux [] rg.resources

/-- Embedding of `validateResourceGroupNamingConventions` from validation.go.  The quote
characters that Go places around the kind name in the first message are
omitted. -/
def validateResourceGroupNamingConventions (rg : ResourceGroup) : Option String :=
  if !isValidKindName rg.kind.kind then
    some (ErrNamingConvention ++ ": kind " ++ rg.kind.kind ++
      " is not a valid KRO kind name: must be UpperCamelCase")
  else
    match validateResourceIDs rg with
    | some e => some (ErrNamingConvention ++ ": " ++ e)
    | none => none

/-! ## CRD defaults (status schema and printer columns) -/

/-- Embedding of `extv1.JSONSchemaProps`, restricted to the fields set by the defaults:
`Type`, `Properties` (in source order) and `Items` (of whose
`JSONSchemaPropsOrArray` wrapper only the `Schema` field is used). -/
inductive JSONSchemaProps : Type where
  | mk (type : String)
       (properties : List (String × JSONSchemaProps))
       (items : Option JSONSchemaProps)

/-- The `Type` field. -/
def JSONSchemaProps.type : JSONSchemaProps → String
  | .mk t _ _ => t

/-- The `Properties` field. -/
def JSONSchemaProps.properties : JSONSchemaProps → List (String × JSONSchemaProps)
  | .mk _ p _ => p

/-- The `Items.Schema` field. -/
def JSONSchemaProps.items : JSONSchemaProps → Option JSONSchemaProps
  | .mk _ _ i => i

/-- Embedding of `extv1.CustomResourceColumnDefinition`, restricted to the fields the
defaults set. -/
structure CustomResourceColumnDefinition : Type where
  name : String
  description : String
  priority : Int
  type : String
  jsonPath : String

/-- Embedding of `defaultStateType`: the synthesized `status.state` schema. -/
def defaultStateType : JSONSchemaProps := .mk "string" [] none

/-- Embedding of `defaultConditionsType`: the synthesized `status.conditions` schema. -/
def defaultConditionsType : JSONSchemaProps :=
  .mk "array" []
    (some (.mk "object"
      [("type", .mk "string" [] none),
       ("status", .mk "string" [] none),
       ("reason", .mk "string" [] none),
       ("message", .mk "string" [] none),
       ("lastTransitionTime", .mk "string" [] none),
       ("observedGeneration", .mk "integer" [] none)]
      none))

/-- Embedding of `defaultAdditionalPrinterColumns`: the three printer columns of the
synthesized kind. -/
def defaultAdditionalPrinterColumns : List CustomResourceColumnDefinition :=
  [{ name := "State",
     description := "The state of a ResourceGroup instance",
     priority := 0, type := "string", jsonPath := ".status.state" },
   { name := "Synced",
     description := "Whether a ResourceGroup instance have all it is subresources ready",
     priority := 0, type := "string",
     jsonPath := ".status.conditions[?(@.type==\"InstanceSynced\")].status" },
   { name := "Age",
     description := "Age of the resource",
     priority := 0, type := "date", jsonPath := ".metadata.creationTimestamp" }]

/-! ## Notions used by the theorems -/

/-- A field name that contains neither a double quote nor a backslash, so
that the `%q` escaping inside `joinPathAndFieldName` is the identity on it. -/
def tameName (n : List Char) : Prop :=
  ∀ c ∈ n, c ≠ '"' ∧ c ≠ '\\'

instance (n : List Char) : Decidable (tameName n) :=
  inferInstanceAs (Decidable (∀ c ∈ n, c ≠ '"' ∧ c ≠ '\\'))

/-- The body of one iteration of the `parseObject` loop: field-schema
lookup (with its error wrapping) followed by the recursive parse of the
entry value at the joined path. -/
def parseObjectEntry (e : String × Value) (schema : Schema) (path : String) :
    PResult (List FieldDescriptor) :=
  match getFieldSchema schema e.1 with
  | .error err =>
    .error ("error getting field schema for path " ++ path ++ "." ++ e.1 ++ ": " ++ err)
  | .ok fieldSchema => parseResource e.2 (some fieldSchema) (joinPathAndFieldName path e.1)

/-- Sequencing of two loop results: the first failure wins, two successes
append. -/
def combineResults (a b : PResult (List FieldDescriptor)) : PResult (List FieldDescriptor) :=
  match a with
  | .panic => .panic
  | .error e => .error e
  | .ok xs =>
    match b with
    | .panic => .panic
    | .error e => .error e
    | .ok ys => .ok (xs ++ ys)

/-- Two parse outcomes agree up to map iteration order: both succeed with
descriptor lists that are permutations of each other, or neither succeeds. -/
def OkEquiv (r₁ r₂ : PResult (List FieldDescriptor)) : Prop :=
  (∃ a b, r₁ = .ok a ∧ r₂ = .ok b ∧ a.Perm b) ∨ (r₁.isOk = false ∧ r₂.isOk = false)

/-- Two decoded documents denote the same Go value: they are equal up to
reordering the entry lists of objects (Go map iteration order), recursively.
Arrays keep their element order; object entry lists may be permuted
(adjacent swap, congruence on head and tail, reflexivity, transitivity). -/
inductive VEquiv : Value → Value → Prop where
  | refl (v : Value) : VEquiv v v
  | trans {u v w : Value} : VEquiv u v → VEquiv v w → VEquiv u w
  | arr {xs ys : List Value} (hlen : xs.length = ys.length)
      (helem : ∀ (i : Nat) (h₁ : i < xs.length) (h₂ : i < ys.length),
        VEquiv (xs.get ⟨i, h₁⟩) (ys.get ⟨i, h₂⟩)) :
      VEquiv (.varr xs) (.varr ys)
  | objCons {v w : Value} {fs gs : List (String × Value)} (k : String) :
      VEquiv v w → VEquiv (.vobj fs) (.vobj gs) →
      VEquiv (.vobj ((k, v) :: fs)) (.vobj ((k, w) :: gs))
  | objSwap (e₁ e₂ : String × Value) (l : List (String × Value)) :
      VEquiv (.vobj (e₁ :: e₂ :: l)) (.vobj (e₂ :: e₁ :: l))

/-- The paths of the descriptors of a successful parse (`none` on failure);
used to separate concrete parse outcomes. -/
def resultPaths : PResult (List FieldDescriptor) → Option (List String)
  | .ok ds => some (ds.map FieldDescriptor.path)
  | _ => none

/-! ## Theorems -/

/-- C4: for every document value and every path, a nil schema makes
`parseResource` return the structural error citing that path (and hence no
FieldDescriptors), uniformly in the value — the error does not depend on the
runtime type of the value, because it is produced before the type dispatch;
at the root, `ParseResource` returns the same error with the empty path.
Recursive calls at deeper paths go through `parseResource` again, so the
statement covers a nil schema at any depth of the traversal. -/
theorem C4_nil_schema_structural_error (v : Value) (path : String)
    (resource : List (String × Value)) :
    parseResource v none path = .error ("schema is nil for path " ++ path) ∧
    ParseResource resource none = .error ("schema is nil for path ") := by
  constructor
  · cases v <;> simp [parseResource, validateSchemaT]
  · simp [ParseResource, parseResource, validateSchemaT]

/-- C7: `getArrayItemSchema` is extensionally equal to the simplified
function that returns `Items.Schema` when `Items` and `Items.Schema` are
both non-nil and the invalid-array-schema error otherwise; its second
branch, guarded by a condition strictly stronger than the first branch
already took, is unreachable for every input schema. -/
theorem C7_getArrayItemSchema_second_branch_unreachable (schema : Schema) (path : String) :
    getArrayItemSchema schema path = getArrayItemSchemaSimple schema path := by
  cases h : itemsSchemaOf schema <;>
    simp [getArrayItemSchema, getArrayItemSchemaSimple, h]

@[simp] theorem Schema.type_mk (t p a i o e) : (Schema.mk t p a i o e).type = t := rfl
@[simp] theorem Schema.properties_mk (t p a i o e) : (Schema.mk t p a i o e).properties = p := rfl
@[simp] theorem Schema.additionalProperties_mk (t p a i o e) :
    (Schema.mk t p a i o e).additionalProperties = a := rfl
@[simp] theorem Schema.items_mk (t p a i o e) : (Schema.mk t p a i o e).items = i := rfl
@[simp] theorem Schema.oneOf_mk (t p a i o e) : (Schema.mk t p a i o e).oneOf = o := rfl
@[simp] theorem Schema.extensions_mk (t p a i o e) : (Schema.mk t p a i o e).extensions = e := rfl
@[simp] theorem Schema.withType_mk (t p a i o e t') :
    (Schema.mk t p a i o e).withType t' = .mk t' p a i o e := rfl

/-- The `vobj` dispatch of `parseResource` is exactly `parseObject` at the
validated schema and its expected type. -/
theorem parseResource_vobj (entries : List (String × Value)) (schema : Option Schema)
    (path : String) :
    parseResource (.vobj entries) schema path =
      match validateSchemaT schema path with
      | .panic => .panic
      | .error e => .error e
      | .ok s => parseObject entries s path (getExpectedType s) := by
  cases h : validateSchemaT schema path <;>
    simp [parseResource, parseObject, h]

/-- The `varr` dispatch of `parseResource` is exactly `parseArray` at the
validated schema and its expected type. -/
theorem parseResource_varr (items : List Value) (schema : Option Schema)
    (path : String) :
    parseResource (.varr items) schema path =
      match validateSchemaT schema path with
      | .panic => .panic
      | .error e => .error e
      | .ok s => parseArray items s path (getExpectedType s) := by
  cases h : validateSchemaT schema path <;>
    simp [parseResource, parseArray, h]

/-- C8: the default status additions and printer columns of the
synthesized kind are exactly as specified: `state` is a string; `conditions`
is an array of objects whose properties are exactly `type`, `status`,
`reason`, `message`, `lastTransitionTime` (strings) and `observedGeneration`
(an integer); and there are exactly three printer columns named `State`,
`Synced` and `Age` whose JSONPaths are `.status.state`, the status of the
condition with type `InstanceSynced`, and `.metadata.creationTimestamp`. -/
theorem C8_default_status_and_printer_columns :
    defaultStateType.type = "string" ∧
    defaultConditionsType.type = "array" ∧
    defaultConditionsType.items.map JSONSchemaProps.type = some "object" ∧
    defaultConditionsType.items.map
        (fun item => item.properties.map (fun kv => (kv.1, kv.2.type))) =
      some [("type", "string"), ("status", "string"), ("reason", "string"),
            ("message", "string"), ("lastTransitionTime", "string"),
            ("observedGeneration", "integer")] ∧
    defaultAdditionalPrinterColumns.length = 3 ∧
    defaultAdditionalPrinterColumns.map CustomResourceColumnDefinition.name =
      ["State", "Synced", "Age"] ∧
    defaultAdditionalPrinterColumns.map CustomResourceColumnDefinition.jsonPath =
      [".status.state",
       ".status.conditions[?(@.type==\"InstanceSynced\")].status",
       ".metadata.creationTimestamp"] := by
  refine ⟨rfl, rfl, rfl, rfl, rfl, rfl, rfl⟩

/-- C9, counterexample: the claim asserts that for every non-nil schema
whose `Type` list does not have exactly one element and whose `OneOf` list
is non-empty, the first `OneOf` alternative has a non-empty `Type` list and
the unchecked index therefore succeeds.  The schema below has an empty
`Type`, a single `OneOf` alternative whose own `Type` list is empty, and
`validateSchema` hits the out-of-bounds index (`panic` in the total
embedding). -/
theorem C9_counterexample :
    (Schema.mk [] none none none [emptySchema] []).type.length ≠ 1 ∧
    (Schema.mk [] none none none [emptySchema] []).oneOf.length = 1 ∧
    validateSchemaT (some (Schema.mk [] none none none [emptySchema] [])) "" = .panic :=
  ⟨by decide, rfl, rfl⟩

/-- C9, amended: `validateSchema` can perform an out-of-bounds access.  For
every non-nil schema whose `Type` list does not have exactly one element and
whose `OneOf` list is non-empty, the unchecked index `OneOf[0].Type[0]`
succeeds (no panic) precisely when the first `OneOf` alternative has a
non-empty `Type` list; when that list is empty the function panics. -/
theorem C9_validateSchema_panic_iff (s : Schema) (path : String)
    (alt : Schema) (rest : List Schema)
    (hone : s.oneOf = alt :: rest) (hlen : s.type.length ≠ 1) :
    validateSchemaT (some s) path = .panic ↔ alt.type = [] := by
  cases halt : alt.type <;> simp [validateSchemaT, hone, hlen, halt]

/-- Witness for C9: the amended theorem applied at a concrete union schema
whose first alternative has an empty type list. -/
theorem C9_witness :
    validateSchemaT (some (Schema.mk [] none none none [emptySchema] [])) "w" = .panic ↔
      emptySchema.type = [] :=
  C9_validateSchema_panic_iff (Schema.mk [] none none none [emptySchema] []) "w"
    emptySchema [] rfl (by decide)

/-- C10: the traversal leaves a schema unchanged except in the union case.
First conjunct: when `validateSchema` succeeds, the schema it hands the rest
of the node dispatch is the input schema itself when `Type` already had
exactly one element, and otherwise — the union case — the input schema with
only its `Type` overwritten in place by the single-element list containing
the first type of the first `OneOf` alternative.  Second conjunct: the
traversal dispatches on exactly that updated schema — a standalone
expression field records it (not the original) as its `ExpectedSchema`.
In this embedding the updated schema returned by `validateSchema` is the
only rewriting of a schema anywhere in the traversal; every other use is a
read. -/
theorem C10_validateSchema_frame (s : Schema) (path : String) :
    (∀ r, validateSchemaT (some s) path = .ok r →
      (s.type.length = 1 → r = s) ∧
      (s.type.length ≠ 1 →
        ∃ alt rest t ts, s.oneOf = alt :: rest ∧ alt.type = t :: ts ∧
          r = s.withType [t])) ∧
    (∀ r, validateSchemaT (some s) path = .ok r →
      ∀ f, isStandaloneExpression f = .ok true →
        parseResource (.vstr f) (some s) path =
          .ok [{ expressions := [trimDollarBraces f],
                 expectedType := getExpectedType r,
                 expectedSchema := some r,
                 path := path,
                 standaloneExpression := true }]) := by
  constructor
  · intro r hr
    constructor
    · intro hlen
      simp [validateSchemaT, hlen] at hr
      exact hr.symm
    · intro hlen
      cases hone : s.oneOf with
      | nil => simp [validateSchemaT, hlen, hone] at hr
      | cons alt rest =>
        cases halt : alt.type with
        | nil => simp [validateSchemaT, hlen, hone, halt] at hr
        | cons t ts =>
          simp [validateSchemaT, hlen, hone, halt] at hr
          exact ⟨alt, rest, t, ts, rfl, halt, hr.symm⟩
  · intro r hr f hf
    simp [parseResource, hr, parseString, hf]

/-- Witness for C10: the frame theorem applied at a concrete union schema
(empty `Type`, one `OneOf` alternative typed `string`), together with the
dispatch conjunct applied to a concrete standalone expression. -/
theorem C10_witness :
    ((Schema.mk [] none none none [.mk ["string"] none none none [] []] []).type.length = 1 →
      Schema.mk ["string"] none none none [.mk ["string"] none none none [] []] [] =
        Schema.mk [] none none none [.mk ["string"] none none none [] []] []) ∧
    parseResource (.vstr "$\x7ba\x7d")
        (some (Schema.mk [] none none none [.mk ["string"] none none none [] []] [])) "" =
      .ok [{ expressions := ["a"],
             expectedType := "string",
             expectedSchema :=
               some (Schema.mk ["string"] none none none [.mk ["string"] none none none [] []] []),
             path := "",
             standaloneExpression := true }] :=
  ⟨((C10_validateSchema_frame (Schema.mk [] none none none
        [.mk ["string"] none none none [] []] []) "").1
      (Schema.mk ["string"] none none none [.mk ["string"] none none none [] []] []) rfl).1,
   ((C10_validateSchema_frame (Schema.mk [] none none none
        [.mk ["string"] none none none [] []] []) "").2
      (Schema.mk ["string"] none none none [.mk ["string"] none none none [] []] []) rfl
      "$\x7ba\x7d" rfl)⟩

/-- Characterization of the `validateResourceIDs` loop: it returns `none`
exactly when every id passes the reserved-word and naming checks, the ids
are pairwise distinct, and no id repeats one already seen. -/
theorem validateResourceIDsAux_eq_none_iff (l : List RGResource) (seen : List String) :
    validateResourceIDsAux seen l = none ↔
      ((∀ res ∈ l, isKROReservedWord res.id = false ∧ isValidResourceID res.id = true) ∧
       (l.map RGResource.id).Nodup ∧ ∀ res ∈ l, res.id ∉ seen) := by
  induction l generalizing seen with
  | nil => simp [validateResourceIDsAux]
  | cons res rest ih =>
    by_cases hres : isKROReservedWord res.id = true
    · constructor
      · intro h
        simp [validateResourceIDsAux, hres] at h
      · rintro ⟨hall, -, -⟩
        have hh := (hall res (List.mem_cons_self _ _)).1
        rw [hres] at hh
        simp at hh
    · by_cases hval : isValidResourceID res.id = true
      · by_cases hseen : res.id ∈ seen
        · have hc : seen.contains res.id = true := by simpa using hseen
          constructor
          · intro h
            simp [validateResourceIDsAux, hres, hval, hseen] at h
          · rintro ⟨-, -, hsn⟩
            exact absurd hseen (hsn res (List.mem_cons_self _ _))
        · have hc : seen.contains res.id = false := by simpa using hseen
          have hstep : validateResourceIDsAux seen (res :: rest) =
              validateResourceIDsAux (res.id :: seen) rest := by
            simp [validateResourceIDsAux, hres, hval, hseen]
          rw [hstep, ih]
          constructor
          · rintro ⟨hall, hnd, hsn⟩
            refine ⟨List.forall_mem_cons.mpr ⟨⟨by simpa using hres, hval⟩, hall⟩, ?_, ?_⟩
            · rw [List.map_cons]
              refine List.nodup_cons.mpr ⟨?_, hnd⟩
              intro hmem
              rcases List.mem_map.mp hmem with ⟨r, hr, hid⟩
              exact (hsn r hr) (by rw [hid]; exact List.mem_cons_self _ _)
            · refine List.forall_mem_cons.mpr ⟨hseen, ?_⟩
              intro r hr hcontra
              exact (hsn r hr) (List.mem_cons_of_mem _ hcontra)
          · rintro ⟨hall, hnd, hsn⟩
            rw [List.map_cons] at hnd
            rcases List.nodup_cons.mp hnd with ⟨hnotin, hnd2⟩
            refine ⟨(List.forall_mem_cons.mp hall).2, hnd2, ?_⟩
            intro r hr hcontra
            rcases List.mem_cons.mp hcontra with h1 | h2
            · exact hnotin (List.mem_map.mpr ⟨r, hr, h1⟩)
            · exact ((List.forall_mem_cons.mp hsn).2 r hr) h2
      · constructor
        · intro h
          simp [validateResourceIDsAux, hres, hval] at h
        · rintro ⟨hall, -, -⟩
          exact absurd (hall res (List.mem_cons_self _ _)).2 hval

/-- C2: `validateResourceGroupNamingConventions` returns nil exactly when
the kind name is UpperCamelCase and every resource identifier is
lowerCamelCase, not a reserved keyword, and pairwise distinct; and a group
whose first resource identifier is `spec` fails with the reserved-keyword
error naming that id. -/
theorem C2_naming_conventions (rg : ResourceGroup) :
    (validateResourceGroupNamingConventions rg = none ↔
      (isValidKindName rg.kind.kind = true ∧
       (∀ res ∈ rg.resources,
          isKROReservedWord res.id = false ∧ isValidResourceID res.id = true) ∧
       (rg.resources.map RGResource.id).Nodup)) ∧
    (∀ rest : List RGResource,
      isValidKindName rg.kind.kind = true →
      rg.resources = ⟨"spec"⟩ :: rest →
      validateResourceGroupNamingConventions rg =
        some (ErrNamingConvention ++ ": id spec is a reserved keyword in KRO")) := by
  constructor
  · by_cases hkind : isValidKindName rg.kind.kind = true
    · have : validateResourceGroupNamingConventions rg = none ↔
          validateResourceIDs rg = none := by
        simp only [validateResourceGroupNamingConventions, hkind]
        cases h : validateResourceIDs rg <;> simp [h]
      rw [this, validateResourceIDs, validateResourceIDsAux_eq_none_iff]
      simp [hkind]
    · simp [validateResourceGroupNamingConventions, hkind]
  · intro rest hkind hr
    simp only [validateResourceGroupNamingConventions, hkind, Bool.not_true,
      Bool.false_eq_true, if_false, validateResourceIDs, hr]
    rfl

/-- Witness for C2: the characterization applied to a concrete passing
group, and the reserved-keyword conjunct applied to a concrete group whose
only resource identifier is `spec`. -/
theorem C2_witness :
    validateResourceGroupNamingConventions ⟨⟨"WebApp"⟩, [⟨"db"⟩, ⟨"web"⟩]⟩ = none ∧
    validateResourceGroupNamingConventions ⟨⟨"WebApp"⟩, [⟨"spec"⟩]⟩ =
      some (ErrNamingConvention ++ ": id spec is a reserved keyword in KRO") :=
  ⟨(C2_naming_conventions ⟨⟨"WebApp"⟩, [⟨"db"⟩, ⟨"web"⟩]⟩).1.mpr
      ⟨by decide, by decide, by decide⟩,
   (C2_naming_conventions ⟨⟨"WebApp"⟩, [⟨"spec"⟩]⟩).2 [] (by decide) rfl⟩

/-- C1: for every string field reached by `ParseResource` (the `vstr`
dispatch of `parseResource`, at the schema `r` that `validateSchema`
validated): when the whole value is a single standalone expression the call
emits exactly one FieldDescriptor with `StandaloneExpression = true`,
`ExpectedType` equal to the schema-declared type, `ExpectedSchema` set to
the governing schema, and the expression with its delimiters stripped; when
the value merely embeds expressions inside a larger string and the declared
type is neither `string` nor `any`, the call returns an error and no
descriptor. -/
theorem C1_standalone_vs_embedded (field : String) (s r : Schema) (path : String)
    (hv : validateSchemaT (some s) path = .ok r) :
    (∀ t, r.type = [t] → t ≠ "" → getExpectedType r = t) ∧
    (isStandaloneExpression field = .ok true →
      parseResource (.vstr field) (some s) path =
        .ok [{ expressions := [trimDollarBraces field],
               expectedType := getExpectedType r,
               expectedSchema := some r,
               path := path,
               standaloneExpression := true }]) ∧
    (isStandaloneExpression field = .ok false →
      getExpectedType r ≠ "string" → getExpectedType r ≠ "any" →
      ∀ es, extractExpressions field = .ok es → es ≠ [] →
      parseResource (.vstr field) (some s) path =
        .error ("expected string type or AdditionalProperties for path " ++ path ++
          ", got " ++ field)) := by
  refine ⟨?_, ?_, ?_⟩
  · intro t ht hne
    simp [getExpectedType, ht, hne]
  · intro hst
    simp [parseResource, hv, parseString, hst]
  · intro hst hnstr hnany es hex hne
    simp [parseResource, hv, parseString, hst, hnstr, hnany]

/-- Witness for C1: the theorem applied at a field of declared type
`integer`: the standalone value yields the typed standalone descriptor, and
the value embedding the same expression in a larger string yields the
incompatible-type error. -/
theorem C1_witness :
    parseResource (.vstr "$\x7bdb.status.port\x7d")
        (some (Schema.mk ["integer"] none none none [] [])) "p" =
      .ok [{ expressions := ["db.status.port"],
             expectedType := "integer",
             expectedSchema := some (Schema.mk ["integer"] none none none [] []),
             path := "p",
             standaloneExpression := true }] ∧
    parseResource (.vstr "port-$\x7bdb.status.port\x7d")
        (some (Schema.mk ["integer"] none none none [] [])) "p" =
      .error ("expected string type or AdditionalProperties for path p, got " ++
        "port-$\x7bdb.status.port\x7d") :=
  ⟨(C1_standalone_vs_embedded "$\x7bdb.status.port\x7d"
      (Schema.mk ["integer"] none none none [] [])
      (Schema.mk ["integer"] none none none [] []) "p" rfl).2.1 rfl,
   (C1_standalone_vs_embedded "port-$\x7bdb.status.port\x7d"
      (Schema.mk ["integer"] none none none [] [])
      (Schema.mk ["integer"] none none none [] []) "p" rfl).2.2 rfl
      (by decide) (by decide) ["db.status.port"] rfl (by decide)⟩

/-- C5, counterexample: the claim asserts that every object whose schema
carries `x-kubernetes-preserve-unknown-fields: true` parses to the empty
descriptor list with no error, but the object-type precheck of
`parseObject` runs before the extension check: a schema of declared type
`string` carrying the extension makes the call fail. -/
theorem C5_counterexample :
    extLookup (Schema.mk ["string"] none none none []
        [(xKubernetesPreserveUnknownFields, true)]) xKubernetesPreserveUnknownFields =
      some true ∧
    (parseObject [("a", .vstr "hi")]
        (Schema.mk ["string"] none none none [] [(xKubernetesPreserveUnknownFields, true)])
        ""
        (getExpectedType (Schema.mk ["string"] none none none []
          [(xKubernetesPreserveUnknownFields, true)]))).isOk = false ∧
    (parseResource
        (.vobj [("a", .vstr "hi")])
        (some (Schema.mk ["string"] none none none []
          [(xKubernetesPreserveUnknownFields, true)])) "").isOk = false :=
  ⟨rfl, rfl, rfl⟩

/-- C5, amended: for every object value whose schema carries the extension
`x-kubernetes-preserve-unknown-fields` set to `true` and additionally
passes the object-type precheck — its declared expected type is `object`,
or its `AdditionalProperties` allow extra fields — `parseObject` returns
the empty FieldDescriptor list and no error, regardless of the object
contents: no expressions are extracted below that subtree and none of its
fields are validated. -/
theorem C5_preserve_unknown_fields_opaque (entries : List (String × Value))
    (s : Schema) (path : String)
    (hext : extLookup s xKubernetesPreserveUnknownFields = some true)
    (hty : getExpectedType s = "object" ∨ apAllows s = true) :
    parseObject entries s path (getExpectedType s) = .ok [] := by
  have hne : s.extensions.isEmpty = false := by
    cases hx : s.extensions with
    | nil => rw [extLookup, hx] at hext; simp at hext
    | cons a l => simp [hx]
  have hpre : (getExpectedType s ≠ "object" && !(apAllows s)) = false := by
    rcases hty with h | h <;> simp [h]
  simp only [parseObject, hpre, Bool.false_eq_true, if_false, hne, Bool.not_false,
    Bool.true_and, hext]
  simp

/-- Witness for C5: the amended theorem applied to a concrete object-typed
schema carrying the extension, over contents that would otherwise fail
validation (an unknown field holding an integer). -/
theorem C5_witness :
    parseObject [("z", .vint 3)]
      (Schema.mk ["object"] none none none [] [(xKubernetesPreserveUnknownFields, true)])
      "" (getExpectedType (Schema.mk ["object"] none none none []
        [(xKubernetesPreserveUnknownFields, true)])) = .ok [] :=
  C5_preserve_unknown_fields_opaque [("z", .vint 3)]
    (Schema.mk ["object"] none none none [] [(xKubernetesPreserveUnknownFields, true)])
    "" rfl (Or.inl rfl)

/-- Splitting at the first occurrence of a separator character: if the
prefixes on both sides avoid the separator, a separated concatenation
determines both parts. -/
theorem sep_split (x : Char) (a : List Char) :
    ∀ (c b d : List Char), (∀ y ∈ a, y ≠ x) → (∀ y ∈ c, y ≠ x) →
      a ++ x :: b = c ++ x :: d → a = c ∧ b = d := by
  induction a with
  | nil =>
    intro c b d _ hc h
    cases c with
    | nil => simpa using h
    | cons c0 cs =>
      simp only [List.nil_append, List.cons_append, List.cons.injEq] at h
      exact absurd h.1.symm (hc c0 (List.mem_cons_self _ _))
  | cons a0 as ih =>
    intro c b d ha hc h
    cases c with
    | nil =>
      simp only [List.nil_append, List.cons_append, List.cons.injEq] at h
      exact absurd h.1 (ha a0 (List.mem_cons_self _ _))
    | cons c0 cs =>
      simp only [List.cons_append, List.cons.injEq] at h
      rcases ih cs b d (fun y hy => ha y (List.mem_cons_of_mem _ hy))
        (fun y hy => hc y (List.mem_cons_of_mem _ hy)) h.2 with ⟨h1, h2⟩
      exact ⟨by rw [h.1, h1], h2⟩

/-- On names without quotes or backslashes the `%q` escaping is the
identity. -/
theorem flatMap_quoteEscape_id (n : List Char) (h : tameName n) :
    n.flatMap quoteEscapeChar = n := by
  induction n with
  | nil => rfl
  | cons c cs ih =>
    have hc := h c (List.mem_cons_self _ _)
    have hcs := ih (fun y hy => h y (List.mem_cons_of_mem _ hy))
    simp [List.flatMap_cons, quoteEscapeChar, hc.1, hc.2, hcs]

/-- Normal form of the quoted-bracket branch of `encodeSeg` on tame names. -/
theorem encodeSeg_quoted (p n : List Char) (hn : tameName n)
    (hq : (n.isEmpty || n.contains '.') = true) :
    encodeSeg p n = p ++ '[' :: '"' :: (n ++ ['"', ']']) := by
  simp only [encodeSeg, hq, if_pos, goQuote, flatMap_quoteEscape_id n hn]
  simp

/-- Reversal normal form of the quoted-bracket encoding. -/
theorem rev_quoted (p n : List Char) :
    (p ++ '[' :: '"' :: (n ++ ['"', ']'])).reverse =
      ']' :: '"' :: (n.reverse ++ '"' :: '[' :: p.reverse) := by
  simp

/-- A quoted-bracket encoding never coincides with a plain (dotted or bare)
encoding of a tame name. -/
theorem quoted_ne_plain (p₁ n₁ p₂ n₂ : List Char)
    (h₁ : tameName n₁) (h₂ : tameName n₂)
    (hb₁ : (n₁.isEmpty || n₁.contains '.') = true)
    (hb₂ : (n₂.isEmpty || n₂.contains '.') = false) :
    encodeSeg p₁ n₁ ≠ encodeSeg p₂ n₂ := by
  have hne : n₂ ≠ [] := by
    intro hn
    rw [hn] at hb₂
    simp at hb₂
  have hq₂ : '"' ∉ n₂ := fun hm => (h₂ '"' hm).1 rfl
  rw [encodeSeg_quoted _ _ h₁ hb₁]
  simp only [encodeSeg, hb₂]
  by_cases hp : p₂.isEmpty = true
  · simp only [hp, if_true, Bool.false_eq_true, if_false]
    intro he
    exact hq₂ (he ▸ (by simp : '"' ∈ p₁ ++ '[' :: '"' :: (n₁ ++ ['"', ']']))) |>.elim
  · simp only [hp, Bool.false_eq_true, if_false]
    intro he
    have hrev := congrArg List.reverse he
    rw [rev_quoted] at hrev
    have hrev2 : (p₂ ++ '.' :: n₂).reverse = n₂.reverse ++ '.' :: p₂.reverse := by simp
    rw [hrev2] at hrev
    cases hrn : n₂.reverse with
    | nil => exact hne (by simpa using congrArg List.reverse hrn)
    | cons c cs =>
      rw [hrn] at hrev
      simp only [List.cons_append, List.cons.injEq] at hrev
      cases cs with
      | nil => simp at hrev
      | cons c2 cs2 =>
        simp only [List.cons_append, List.cons.injEq] at hrev
        apply hq₂
        rw [← List.mem_reverse, hrn, hrev.2.1]
        exact List.mem_cons_of_mem _ (List.mem_cons_self _ _)

/-- Injectivity of the path-segment encoding on names without quotes or
backslashes: equal encodings come from equal (path, name) pairs. -/
theorem encodeSeg_inj (p₁ n₁ p₂ n₂ : List Char)
    (h₁ : tameName n₁) (h₂ : tameName n₂)
    (he : encodeSeg p₁ n₁ = encodeSeg p₂ n₂) : p₁ = p₂ ∧ n₁ = n₂ := by
  by_cases hb₁ : (n₁.isEmpty || n₁.contains '.') = true
  · by_cases hb₂ : (n₂.isEmpty || n₂.contains '.') = true
    · rw [encodeSeg_quoted _ _ h₁ hb₁, encodeSeg_quoted _ _ h₂ hb₂] at he
      have hrev := congrArg List.reverse he
      rw [rev_quoted, rev_quoted] at hrev
      simp only [List.cons.injEq, true_and] at hrev
      have hsplit := sep_split '"' n₁.reverse n₂.reverse
        ('[' :: p₁.reverse) ('[' :: p₂.reverse)
        (fun y hy => (h₁ y (List.mem_reverse.mp hy)).1)
        (fun y hy => (h₂ y (List.mem_reverse.mp hy)).1) hrev
      rcases hsplit with ⟨hn, hp⟩
      simp only [List.cons.injEq, true_and] at hp
      exact ⟨List.reverse_injective hp, List.reverse_injective hn⟩
    · exact absurd he (quoted_ne_plain p₁ n₁ p₂ n₂ h₁ h₂ hb₁ (by simpa using hb₂))
  · by_cases hb₂ : (n₂.isEmpty || n₂.contains '.') = true
    · exact absurd he.symm
        (quoted_ne_plain p₂ n₂ p₁ n₁ h₂ h₁ hb₂ (by simpa using hb₁))
    · replace hb₁ : (n₁.isEmpty || n₁.contains '.') = false := by simpa using hb₁
      replace hb₂ : (n₂.isEmpty || n₂.contains '.') = false := by simpa using hb₂
      have hd₁ : '.' ∉ n₁ := by
        have := (Bool.or_eq_false_iff.mp hb₁).2
        simpa using this
      have hd₂ : '.' ∉ n₂ := by
        have := (Bool.or_eq_false_iff.mp hb₂).2
        simpa using this
      simp only [encodeSeg, hb₁, hb₂, Bool.false_eq_true, if_false] at he
      by_cases hp₁ : p₁.isEmpty = true
      · by_cases hp₂ : p₂.isEmpty = true
        · rw [if_pos hp₁, if_pos hp₂] at he
          exact ⟨by rw [List.isEmpty_iff.mp hp₁, List.isEmpty_iff.mp hp₂], he⟩
        · rw [if_pos hp₁, if_neg (by simp [hp₂])] at he
          exact absurd (he ▸ (by simp : '.' ∈ p₂ ++ '.' :: n₂)) hd₁
      · by_cases hp₂ : p₂.isEmpty = true
        · rw [if_neg (by simp [hp₁]), if_pos hp₂] at he
          exact absurd (he ▸ (by simp : '.' ∈ p₁ ++ '.' :: n₁)) hd₂
        · rw [if_neg (by simp [hp₁]), if_neg (by simp [hp₂])] at he
          have hrev := congrArg List.reverse he
          have e₁ : (p₁ ++ '.' :: n₁).reverse = n₁.reverse ++ '.' :: p₁.reverse := by simp
          have e₂ : (p₂ ++ '.' :: n₂).reverse = n₂.reverse ++ '.' :: p₂.reverse := by simp
          rw [e₁, e₂] at hrev
          have hsplit := sep_split '.' n₁.reverse n₂.reverse p₁.reverse p₂.reverse
            (fun y hy hc => hd₁ (hc ▸ List.mem_reverse.mp hy))
            (fun y hy hc => hd₂ (hc ▸ List.mem_reverse.mp hy)) hrev
          exact ⟨List.reverse_injective hsplit.2, List.reverse_injective hsplit.1⟩

/-- C6, counterexample: the claim asserts that distinct (path, name) pairs
yield encodings from which the pair is recoverable, but the pairs
("a.b", "") and ("a", "b[\"\"]") produce the same encoding. -/
theorem C6_counterexample :
    joinPathAndFieldName "a.b" "" = joinPathAndFieldName "a" "b[\"\"]" ∧
    ¬("a.b" = "a" ∧ ("" : String) = "b[\"\"]") :=
  ⟨rfl, by decide⟩

/-- C6, amended: `joinPathAndFieldName` returns the quoted bracket segment
appended to the path when the name is empty or contains a dot, the name
alone when the path is empty, and `path.name` otherwise; and distinct
(path, name) pairs yield distinct encodings provided the field names
contain neither a double-quote nor a backslash — names containing such
characters can collide with bracket-quoted encodings. -/
theorem C6_joinPathAndFieldName (path name p₁ n₁ p₂ n₂ : String) :
    ((name.data.isEmpty || name.data.contains '.') = true →
      joinPathAndFieldName path name = ⟨path.data ++ '[' :: (goQuote name.data ++ [']'])⟩) ∧
    ((name.data.isEmpty || name.data.contains '.') = false → path = "" →
      joinPathAndFieldName path name = name) ∧
    ((name.data.isEmpty || name.data.contains '.') = false → path ≠ "" →
      joinPathAndFieldName path name = ⟨path.data ++ '.' :: name.data⟩) ∧
    (tameName n₁.data → tameName n₂.data →
      joinPathAndFieldName p₁ n₁ = joinPathAndFieldName p₂ n₂ →
      p₁ = p₂ ∧ n₁ = n₂) := by
  refine ⟨?_, ?_, ?_, ?_⟩
  · intro hb
    unfold joinPathAndFieldName encodeSeg
    rw [if_pos hb]
  · intro hb hp
    subst hp
    have hcomp := Bool.or_eq_false_iff.mp hb
    have h1 : ¬name.data = [] := by simpa using hcomp.1
    have h2 : '.' ∉ name.data := by simpa using hcomp.2
    unfold joinPathAndFieldName encodeSeg
    rw [if_neg (by simp; exact ⟨h1, h2⟩ :
        ¬((name.data.isEmpty || name.data.contains '.') = true)), if_pos (by rfl)]
  · intro hb hp
    have hcomp := Bool.or_eq_false_iff.mp hb
    have h1 : ¬name.data = [] := by simpa using hcomp.1
    have h2 : '.' ∉ name.data := by simpa using hcomp.2
    have hpd : path.data.isEmpty = true → False := by
      intro hd
      have : path.data = [] := by simpa using hd
      exact hp (congrArg String.mk this)
    unfold joinPathAndFieldName encodeSeg
    rw [if_neg (by simp; exact ⟨h1, h2⟩ :
        ¬((name.data.isEmpty || name.data.contains '.') = true)), if_neg hpd]
  · intro ht₁ ht₂ he
    have hdata : encodeSeg p₁.data n₁.data = encodeSeg p₂.data n₂.data :=
      congrArg String.data he
    rcases encodeSeg_inj _ _ _ _ ht₁ ht₂ hdata with ⟨hp, hn⟩
    exact ⟨congrArg String.mk hp, congrArg String.mk hn⟩

/-- Witness for C6: the three branch equations applied at concrete inputs,
and the injectivity conjunct applied at a concrete equal pair of tame
encodings. -/
theorem C6_witness :
    joinPathAndFieldName "a" "b.c" = "a[\"b.c\"]" ∧
    joinPathAndFieldName "" "web" = "web" ∧
    joinPathAndFieldName "a" "b" = "a.b" ∧
    (("a" : String) = "a" ∧ ("b" : String) = "b") :=
  ⟨((C6_joinPathAndFieldName "a" "b.c" "" "" "" "").1 (by decide)).trans rfl,
   (C6_joinPathAndFieldName "" "web" "" "" "" "").2.1 (by decide) rfl,
   ((C6_joinPathAndFieldName "a" "b" "" "" "" "").2.2.1 (by decide) (by decide)).trans rfl,
   (C6_joinPathAndFieldName "" "" "a" "b" "a" "b").2.2.2 (by decide) (by decide) rfl⟩

/-- OkEquiv is reflexive. -/
theorem okEquiv_refl (r : PResult (List FieldDescriptor)) : OkEquiv r r := by
  cases r with
  | ok a => exact Or.inl ⟨a, a, rfl, rfl, List.Perm.refl a⟩
  | panic => exact Or.inr ⟨rfl, rfl⟩
  | error e => exact Or.inr ⟨rfl, rfl⟩

/-- OkEquiv is transitive. -/
theorem okEquiv_trans {a b c : PResult (List FieldDescriptor)}
    (h₁ : OkEquiv a b) (h₂ : OkEquiv b c) : OkEquiv a c := by
  rcases h₁ with ⟨x, y, hx, hy, hxy⟩ | ⟨ha, hb⟩
  · rcases h₂ with ⟨y2, z, hy2, hz, hyz⟩ | ⟨hb, hc⟩
    · subst hy
      injection hy2 with hyy
      subst hyy
      exact Or.inl ⟨x, z, hx, hz, hxy.trans hyz⟩
    · subst hy
      simp [PResult.isOk] at hb
  · rcases h₂ with ⟨y, z, hy, hz, hyz⟩ | ⟨hb2, hc⟩
    · subst hy
      simp [PResult.isOk] at hb
    · exact Or.inr ⟨ha, hc⟩

/-- Success of a combined result is the conjunction of the successes. -/
theorem combineResults_isOk (a b : PResult (List FieldDescriptor)) :
    (combineResults a b).isOk = (a.isOk && b.isOk) := by
  cases a <;> cases b <;> rfl

/-- Combining respects OkEquiv componentwise. -/
theorem okEquiv_combine {a₁ a₂ b₁ b₂ : PResult (List FieldDescriptor)}
    (ha : OkEquiv a₁ a₂) (hb : OkEquiv b₁ b₂) :
    OkEquiv (combineResults a₁ b₁) (combineResults a₂ b₂) := by
  rcases ha with ⟨x₁, x₂, hx₁, hx₂, hx⟩ | ⟨h₁, h₂⟩
  · subst hx₁; subst hx₂
    rcases hb with ⟨y₁, y₂, hy₁, hy₂, hy⟩ | ⟨k₁, k₂⟩
    · subst hy₁; subst hy₂
      exact Or.inl ⟨x₁ ++ y₁, x₂ ++ y₂, rfl, rfl, hx.append hy⟩
    · refine Or.inr ⟨?_, ?_⟩
      · rw [combineResults_isOk, k₁]
        simp
      · rw [combineResults_isOk, k₂]
        simp
  · refine Or.inr ⟨?_, ?_⟩
    · rw [combineResults_isOk, h₁]
      simp
    · rw [combineResults_isOk, h₂]
      simp

/-- Exchanging the first two of three combined results preserves OkEquiv:
two adjacent object entries can be processed in either order. -/
theorem okEquiv_combine_left_comm (a b c : PResult (List FieldDescriptor)) :
    OkEquiv (combineResults a (combineResults b c))
      (combineResults b (combineResults a c)) := by
  cases a with
  | panic => cases b <;> cases c <;> exact Or.inr ⟨rfl, rfl⟩
  | error e => cases b <;> cases c <;> exact Or.inr ⟨rfl, rfl⟩
  | ok xs =>
    cases b with
    | panic => cases c <;> exact Or.inr ⟨rfl, rfl⟩
    | error e => cases c <;> exact Or.inr ⟨rfl, rfl⟩
    | ok ys =>
      cases c with
      | panic => exact Or.inr ⟨rfl, rfl⟩
      | error e => exact Or.inr ⟨rfl, rfl⟩
      | ok zs =>
        refine Or.inl ⟨xs ++ (ys ++ zs), ys ++ (xs ++ zs), rfl, rfl, ?_⟩
        have h1 : xs ++ (ys ++ zs) = (xs ++ ys) ++ zs := (List.append_assoc _ _ _).symm
        have h2 : (ys ++ xs) ++ zs = ys ++ (xs ++ zs) := List.append_assoc _ _ _
        rw [h1, ← h2]
        exact List.perm_append_comm.append_right zs

/-- One step of the object-entry loop is a combination of the entry result
and the rest. -/
theorem parseObjectEntries_cons (e : String × Value) (rest : List (String × Value))
    (schema : Schema) (path : String) :
    parseObjectEntries (e :: rest) schema path =
      combineResults (parseObjectEntry e schema path) (parseObjectEntries rest schema path) := by
  obtain ⟨k, v⟩ := e
  cases hgf : getFieldSchema schema k with
  | error err => simp [parseObjectEntries, parseObjectEntry, combineResults, hgf]
  | ok fs =>
    cases hpr : parseResource v (some fs) (joinPathAndFieldName path k) with
    | panic => simp [parseObjectEntries, parseObjectEntry, combineResults, hgf, hpr]
    | error e2 => simp [parseObjectEntries, parseObjectEntry, combineResults, hgf, hpr]
    | ok ds =>
      cases hrest : parseObjectEntries rest schema path <;>
        simp [parseObjectEntries, parseObjectEntry, combineResults, hgf, hpr, hrest]

/-- One step of the array-item loop is a combination of the item result
and the rest. -/
theorem parseArrayItems_cons (item : Value) (rest : List Value) (isc : Schema)
    (path : String) (i : Nat) :
    parseArrayItems (item :: rest) isc path i =
      combineResults (parseResource item (some isc) (path ++ "[" ++ toString i ++ "]"))
        (parseArrayItems rest isc path (i + 1)) := by
  cases hpr : parseResource item (some isc) (path ++ "[" ++ toString i ++ "]") with
  | panic => simp [parseArrayItems, combineResults, hpr]
  | error e2 => simp [parseArrayItems, combineResults, hpr]
  | ok ds =>
    cases hrest : parseArrayItems rest isc path (i + 1) <;>
      simp [parseArrayItems, combineResults, hpr, hrest]

/-- The `Type` of an updated schema. -/
theorem Schema.type_withType (s : Schema) (t : List String) : (s.withType t).type = t := by
  cases s; rfl

/-- A schema accepted by `validateSchema` has a singleton `Type` list. -/
theorem validateSchemaT_ok_type_length {schema : Option Schema} {r : Schema} {path : String}
    (h : validateSchemaT schema path = .ok r) : r.type.length = 1 := by
  cases schema with
  | none => simp [validateSchemaT] at h
  | some s =>
    by_cases hlen : s.type.length = 1
    · simp [validateSchemaT, hlen] at h
      rw [← h]
      exact hlen
    · cases hone : s.oneOf with
      | nil => simp [validateSchemaT, hlen, hone] at h
      | cons alt rest =>
        cases halt : alt.type with
        | nil => simp [validateSchemaT, hlen, hone, halt] at h
        | cons t ts =>
          simp [validateSchemaT, hlen, hone, halt] at h
          rw [← h, Schema.type_withType]
          rfl

/-- `validateSchema` is the identity on schemas with a singleton `Type`. -/
theorem validateSchemaT_self {s : Schema} (h : s.type.length = 1) (path : String) :
    validateSchemaT (some s) path = .ok s := by
  simp [validateSchemaT, h]

/-- Item-wise equivalent arrays give OkEquiv item loops, at any start
index. -/
theorem parseArrayItems_okequiv (xs : List Value) :
    ∀ (ys : List Value), xs.length = ys.length →
    (∀ (j : Nat) (h₁ : j < xs.length) (h₂ : j < ys.length),
      ∀ (schema : Option Schema) (path : String),
        OkEquiv (parseResource (xs.get ⟨j, h₁⟩) schema path)
          (parseResource (ys.get ⟨j, h₂⟩) schema path)) →
    ∀ (isc : Schema) (path : String) (i : Nat),
      OkEquiv (parseArrayItems xs isc path i) (parseArrayItems ys isc path i) := by
  induction xs with
  | nil =>
    intro ys hlen helem isc path i
    cases ys with
    | nil => exact okEquiv_refl _
    | cons y ys2 => simp at hlen
  | cons x xs2 ih =>
    intro ys hlen helem isc path i
    cases ys with
    | nil => simp at hlen
    | cons y ys2 =>
      rw [parseArrayItems_cons, parseArrayItems_cons]
      refine okEquiv_combine ?_ ?_
      · exact helem 0 (by simp) (by simp) (some isc) (path ++ "[" ++ toString i ++ "]")
      · refine ih ys2 (by simpa using hlen) ?_ isc path (i + 1)
        intro j hj₁ hj₂ schema p
        exact helem (j + 1) (Nat.succ_lt_succ hj₁) (Nat.succ_lt_succ hj₂) schema p

/-- Parsing respects document equivalence up to map iteration order: on
VEquiv-related documents the traversal either fails on both or succeeds on
both with descriptor lists that are permutations of each other. -/
theorem parse_okequiv_of_vequiv : ∀ {v w : Value}, VEquiv v w →
    ∀ (schema : Option Schema) (path : String),
      OkEquiv (parseResource v schema path) (parseResource w schema path) := by
  intro v w h
  induction h with
  | refl v =>
    intro schema path
    exact okEquiv_refl _
  | trans h₁ h₂ ih₁ ih₂ =>
    intro schema path
    exact okEquiv_trans (ih₁ schema path) (ih₂ schema path)
  | arr hlen helem ih =>
    intro schema path
    cases hv : validateSchemaT schema path with
    | panic =>
      simp only [parseResource, hv]
      exact Or.inr ⟨rfl, rfl⟩
    | error e =>
      simp only [parseResource, hv]
      exact Or.inr ⟨rfl, rfl⟩
    | ok r =>
      by_cases hty : getExpectedType r = "array"
      · cases his : getArrayItemSchema r path with
        | error e =>
          simp only [parseResource, hv, hty, his]
          simp only [ne_eq, not_true_eq_false, if_false, reduceIte]
          exact Or.inr ⟨rfl, rfl⟩
        | ok isc =>
          simp only [parseResource, hv, hty, his]
          simp only [ne_eq, not_true_eq_false, if_false, reduceIte]
          exact parseArrayItems_okequiv _ _ hlen ih isc path 0
      · simp only [parseResource, hv]
        rw [if_pos hty, if_pos hty]
        exact Or.inr ⟨rfl, rfl⟩
  | objCons k hvw hfg ihvw ihfg =>
    intro schema path
    cases hv : validateSchemaT schema path with
    | panic =>
      simp only [parseResource, hv]
      exact Or.inr ⟨rfl, rfl⟩
    | error e =>
      simp only [parseResource, hv]
      exact Or.inr ⟨rfl, rfl⟩
    | ok r =>
      have hr1 : r.type.length = 1 := validateSchemaT_ok_type_length hv
      by_cases hc : (decide (getExpectedType r ≠ "object") && !apAllows r) = true
      · simp only [parseResource, hv]
        rw [if_pos hc, if_pos hc]
        exact Or.inr ⟨rfl, rfl⟩
      · by_cases hx : (!r.extensions.isEmpty &&
            (extLookup r xKubernetesPreserveUnknownFields == some true)) = true
        · simp only [parseResource, hv]
          rw [if_neg hc, if_neg hc, if_pos hx, if_pos hx]
          exact Or.inl ⟨[], [], rfl, rfl, List.Perm.refl []⟩
        · have hred : ∀ (es : List (String × Value)) (sch : Option Schema),
              validateSchemaT sch path = .ok r →
              parseResource (.vobj es) sch path = parseObjectEntries es r path := by
            intro es sch hsch
            simp only [parseResource, hsch]
            rw [if_neg hc, if_neg hx]
          rw [hred _ _ hv, hred _ _ hv,
            parseObjectEntries_cons, parseObjectEntries_cons]
          refine okEquiv_combine ?_ ?_
          · simp only [parseObjectEntry]
            cases hgf : getFieldSchema r k with
            | error err => exact Or.inr ⟨rfl, rfl⟩
            | ok fs => exact ihvw (some fs) (joinPathAndFieldName path k)
          · have hself : validateSchemaT (some r) path = .ok r :=
              validateSchemaT_self hr1 path
            have := ihfg (some r) path
            rwa [hred _ _ hself, hred _ _ hself] at this
  | objSwap e₁ e₂ l =>
    intro schema path
    cases hv : validateSchemaT schema path with
    | panic =>
      simp only [parseResource, hv]
      exact Or.inr ⟨rfl, rfl⟩
    | error e =>
      simp only [parseResource, hv]
      exact Or.inr ⟨rfl, rfl⟩
    | ok r =>
      by_cases hc : (decide (getExpectedType r ≠ "object") && !apAllows r) = true
      · simp only [parseResource, hv]
        rw [if_pos hc, if_pos hc]
        exact Or.inr ⟨rfl, rfl⟩
      · by_cases hx : (!r.extensions.isEmpty &&
            (extLookup r xKubernetesPreserveUnknownFields == some true)) = true
        · simp only [parseResource, hv]
          rw [if_neg hc, if_neg hc, if_pos hx, if_pos hx]
          exact Or.inl ⟨[], [], rfl, rfl, List.Perm.refl []⟩
        · simp only [parseResource, hv]
          rw [if_neg hc, if_neg hc, if_neg hx, if_neg hx,
            parseObjectEntries_cons, parseObjectEntries_cons,
            parseObjectEntries_cons, parseObjectEntries_cons]
          exact okEquiv_combine_left_comm _ _ _

/-- C3, counterexample: the claim asserts that two calls of `ParseResource`
on equal inputs return descriptor lists in the same order on every run, but
`parseObject` iterates a Go map: the two entry orders below denote the same
map (they are permutations of each other) and yield descriptor lists in
different orders. -/
theorem C3_counterexample :
    ([("a", Value.vstr "$\x7bx\x7d"), ("b", Value.vstr "$\x7by\x7d")]).Perm
      [("b", Value.vstr "$\x7by\x7d"), ("a", Value.vstr "$\x7bx\x7d")] ∧
    ParseResource [("a", .vstr "$\x7bx\x7d"), ("b", .vstr "$\x7by\x7d")]
        (some (Schema.mk ["object"]
          (some [("a", Schema.mk ["string"] none none none [] []),
                 ("b", Schema.mk ["string"] none none none [] [])])
          none none [] [])) ≠
      ParseResource [("b", .vstr "$\x7by\x7d"), ("a", .vstr "$\x7bx\x7d")]
        (some (Schema.mk ["object"]
          (some [("a", Schema.mk ["string"] none none none [] []),
                 ("b", Schema.mk ["string"] none none none [] [])])
          none none [] [])) :=
  ⟨List.Perm.swap _ _ _,
   fun h => absurd (congrArg resultPaths h) (by decide)⟩

/-- C3, amended: `ParseResource` is deterministic up to map iteration
order.  For every pair of calls on inputs that denote the same value —
equal up to reordering the entries of objects, which is what Go map
iteration does not fix — the two calls agree on success or failure, and on
success return FieldDescriptor lists that are permutations of each other;
the order of descriptors across the properties of an object follows the
iteration order and is not fixed between runs. -/
theorem C3_parse_deterministic_up_to_order :
    (∀ (v w : Value), VEquiv v w → ∀ (schema : Option Schema) (path : String),
      OkEquiv (parseResource v schema path) (parseResource w schema path)) ∧
    (∀ (res₁ res₂ : List (String × Value)) (schema : Option Schema),
      VEquiv (.vobj res₁) (.vobj res₂) →
      OkEquiv (ParseResource res₁ schema) (ParseResource res₂ schema)) :=
  ⟨fun _ _ h schema path => parse_okequiv_of_vequiv h schema path,
   fun _ _ schema h => parse_okequiv_of_vequiv h schema ""⟩

/-- Witness for C3: the amended theorem applied to a concrete two-entry
object under its two iteration orders. -/
theorem C3_witness :
    OkEquiv
      (ParseResource [("a", .vstr "$\x7bx\x7d"), ("b", .vstr "$\x7by\x7d")]
        (some (Schema.mk ["object"]
          (some [("a", Schema.mk ["string"] none none none [] []),
                 ("b", Schema.mk ["string"] none none none [] [])])
          none none [] [])))
      (ParseResource [("b", .vstr "$\x7by\x7d"), ("a", .vstr "$\x7bx\x7d")]
        (some (Schema.mk ["object"]
          (some [("a", Schema.mk ["string"] none none none [] []),
                 ("b", Schema.mk ["string"] none none none [] [])])
          none none [] []))) :=
  C3_parse_deterministic_up_to_order.2 _ _ _
    (VEquiv.objSwap ("a", .vstr "$\x7bx\x7d") ("b", .vstr "$\x7by\x7d") [])

end Kro
